import Mathlib

/-!
Verification of the UpTask backend membership and authorization model.

The definitions below are a shallow embedding of the TypeScript source:
* TeamMemberController (findMemberByEmail, getProjectTeam, addMemberById,
  removeMemberById) from src/controllers/TeamController.ts;
* the middleware chains of src/routes/projectRoutes.ts for the task routes;
* parts of the system that are only declared in the available sources
  (the hasAuthorization middleware, the updateTaskStatus controller and the
  identity store lookup) are modelled from the specification, as marked.

Document ids are modelled as strings: the source compares ids via
toString() equality, so ids are opaque tokens with decidable equality.
-/

namespace UpTask

/-- A stored user record of the identity store (models the User document:
identity fields plus the credential hash, which must never be exposed). -/
structure User where
  id : String
  name : String
  email : String
  passwordHash : String
deriving Repr, DecidableEq

/-- The membership state of a Project document: the two parallel reference
collections of user ids (the source fields manager and team). -/
structure Project where
  manager : List String
  team : List String
deriving Repr, DecidableEq

/-- Outcome of an express handler: success body, or error status and message,
as produced by res.send / res.status(...).json in the source. -/
inductive HandlerOutcome where
  | ok (body : String)
  | err (status : Nat) (message : String)
deriving Repr, DecidableEq

/-- Whether the outcome is an error response. -/
def HandlerOutcome.isErr : HandlerOutcome → Bool
  | .ok _ => false
  | .err _ _ => true

/-- Embedding of User.findById(id): the identity store lookup by id. -/
def findById (users : List User) (id : String) : Option User :=
  users.find? fun u => u.id == id

/-- Embedding of TeamMemberController.addMemberById (part_000 lines 56-79):
look the user up by id (404 when absent), reject with 409 when the id is
already in team or in manager, otherwise push onto team and save.
Returns the project state after the call together with the response. -/
def addMemberById (users : List User) (p : Project) (id : String) :
    Project × HandlerOutcome :=
  match findById users id with
  | none => (p, .err 404 "Usuario no encontrado")
  | some user =>
      if p.team.any (fun t => t == user.id) ||
         p.manager.any (fun m => m == user.id) then
        (p, .err 409 "Este usuario ya está en el proyecto como miembro o manager")
      else
        ({ p with team := p.team ++ [user.id] }, .ok "Usuario agregado correctamente")

/-- Embedding of TeamMemberController.removeMemberById (part_000 lines 81-94):
409 when the id is not in team, otherwise filter it out of team and save.
Returns the project state after the call together with the response. -/
def removeMemberById (p : Project) (userId : String) :
    Project × HandlerOutcome :=
  if !(p.team.any fun t => t == userId) then
    (p, .err 409 "Este usuario no existe en el proyecto")
  else
    ({ p with team := p.team.filter fun t => t != userId },
     .ok "Usuario eliminado correctamente")

/-- The projection of a user that populate / select (id name email) returns:
credential fields are absent from this type by construction. -/
structure PublicUser where
  id : String
  name : String
  email : String
deriving Repr, DecidableEq

/-- The select (id name email) projection applied to a stored user. -/
def publicOf (u : User) : PublicUser :=
  { id := u.id, name := u.name, email := u.email }

/-- Embedding of populate with select (id name email): resolve each stored
reference to its user document, projected to id, name and email. -/
def populateUsers (users : List User) (ids : List String) : List PublicUser :=
  (ids.filterMap fun i => findById users i).map publicOf

/-- The response shape of getProjectTeam: two arrays of projected users. -/
structure TeamRoster where
  managers : List PublicUser
  collaborators : List PublicUser
deriving Repr, DecidableEq

/-- Embedding of TeamMemberController.getProjectTeam (part_000 lines 19-54):
populate manager and team with the id-name-email projection, collect the
manager ids, return the managers without the authenticated caller, and the
team members without the caller and without anyone whose id is a manager id. -/
def getProjectTeam (users : List User) (p : Project) (callerId : String) :
    TeamRoster :=
  let managerDocs := populateUsers users p.manager
  let teamDocs := populateUsers users p.team
  let managerIds := managerDocs.map fun m => m.id
  let managers := managerDocs.filter fun m => m.id != callerId
  let collaborators := teamDocs.filter fun m =>
    m.id != callerId && !(managerIds.contains m.id)
  { managers := managers, collaborators := collaborators }

/-- Character-wise lowercasing of a string, the semantics of the
express-validator toLowerCase sanitizer on the email field. -/
def lowerStr (s : String) : String :=
  String.mk (s.data.map Char.toLower)

/-- Modelled from the spec: the identity store operation
findByEmail(email) -> User? behind User.findOne on the email field; the User
model and store are not among the available sources. Section 6 declares the
lookup case-insensitive, so a stored user matches when its email equals the
query up to letter case. -/
def findOneByEmail (users : List User) (email : String) : Option User :=
  users.find? fun u => lowerStr u.email == lowerStr email

/-- Embedding of TeamMemberController.findMemberByEmail (part_000 lines 6-17):
look the user up by email with the id-email-name projection, 404 when absent. -/
def findMemberByEmail (users : List User) (email : String) :
    Except HandlerOutcome PublicUser :=
  match findOneByEmail users email with
  | none => .error (.err 404 "usuario no encontrado")
  | some u => .ok (publicOf u)

/-- Embedding of the route POST /:projectId/team/find
(projectRoutes.ts lines 510-515): the email body field is sanitized with
toLowerCase before the controller runs. -/
def findMemberRoute (users : List User) (email : String) :
    Except HandlerOutcome PublicUser :=
  findMemberByEmail users (lowerStr email)

/-- Modelled from the spec: the hasAuthorization middleware
(src/middleware/task.ts, only imported by the available sources). Section 4.1:
authorizeMutation fails with Forbidden unless the user id is present in
project.manager, regardless of team membership. -/
def hasAuthorization (p : Project) (userId : String) : Bool :=
  p.manager.any fun m => m == userId

/-- Membership predicate of section 4.1: present in manager or team. -/
def isMember (p : Project) (userId : String) : Bool :=
  (p.manager.any fun m => m == userId) || (p.team.any fun t => t == userId)

/-- Authorization outcome of a guarded task route. -/
inductive AuthOutcome where
  | allowed
  | forbidden
deriving Repr, DecidableEq

/-- Embedding of the middleware chain of PUT /:projectId/task/:taskId
(projectRoutes.ts lines 370-379): hasAuthorization gates
TaskController.updateTask, so a caller outside manager is rejected with
Forbidden before the controller runs. -/
def updateTaskRoute (p : Project) (callerId : String) : AuthOutcome :=
  if hasAuthorization p callerId then .allowed else .forbidden

/-- Embedding of the middleware chain of DELETE /:projectId/task/:taskId
(projectRoutes.ts lines 409-414): hasAuthorization gates
TaskController.deleteTask. -/
def deleteTaskRoute (p : Project) (callerId : String) : AuthOutcome :=
  if hasAuthorization p callerId then .allowed else .forbidden

/-- Task status enum of the data model. -/
inductive TaskStatus where
  | pending
  | onHold
  | inProgress
  | underReview
  | completed
deriving Repr, DecidableEq

/-- A status-history entry: previous status, new status and acting user. -/
structure StatusChange where
  fromStatus : TaskStatus
  toStatus : TaskStatus
  actor : String
deriving Repr, DecidableEq

/-- The task state that the status workflow touches. -/
structure Task where
  status : TaskStatus
  history : List StatusChange
deriving Repr, DecidableEq

/-- Modelled from the spec: TaskController.updateTaskStatus behind
POST /:projectId/task/:taskId/status (projectRoutes.ts lines 454-459). The
route chain carries no hasAuthorization middleware; section 4.3 says the
operation requires only isMember, appends a history entry and sets the new
status. Returns none when the caller is not a project member. -/
def updateTaskStatusRoute (p : Project) (t : Task) (callerId : String)
    (newStatus : TaskStatus) : Option Task :=
  if isMember p callerId then
    some { status := newStatus,
           history := t.history ++ [{ fromStatus := t.status,
                                      toStatus := newStatus,
                                      actor := callerId }] }
  else
    none

/-- The no-dual-role invariant: no user id is in both manager and team. -/
def noDualRole (p : Project) : Prop :=
  ∀ x ∈ p.manager, x ∉ p.team

instance (p : Project) : Decidable (noDualRole p) := by
  unfold noDualRole; infer_instance

/-! Helper lemmas shared by the claim theorems. -/

theorem any_beq_iff_mem {l : List String} {a : String} :
    (l.any fun t => t == a) = true ↔ a ∈ l := by
  simp [List.any_eq_true]

theorem findById_id {users : List User} {id : String} {u : User}
    (h : findById users id = some u) : u.id = id := by
  have hp := List.find?_some h
  simpa using hp

theorem findById_mem {users : List User} {id : String} {u : User}
    (h : findById users id = some u) : u ∈ users :=
  List.mem_of_find?_eq_some h

theorem charToNat_ofNat {n : Nat} (h : n < 55296) : (Char.ofNat n).toNat = n := by
  have hv : n.isValidChar := Or.inl h
  rw [Char.ofNat, dif_pos hv]
  rfl

theorem toLower_eq (c : Char) :
    c.toLower = if c.toNat ≥ 65 ∧ c.toNat ≤ 90 then Char.ofNat (c.toNat + 32) else c :=
  rfl

theorem toLower_toLower (c : Char) : c.toLower.toLower = c.toLower := by
  rw [toLower_eq c]
  by_cases h : c.toNat ≥ 65 ∧ c.toNat ≤ 90
  · rw [if_pos h, toLower_eq]
    have hn : (Char.ofNat (c.toNat + 32)).toNat = c.toNat + 32 :=
      charToNat_ofNat (by omega)
    rw [if_neg (by rw [hn]; omega)]
  · rw [if_neg h, toLower_eq, if_neg h]

theorem lowerStr_lowerStr (s : String) : lowerStr (lowerStr s) = lowerStr s := by
  unfold lowerStr
  simp only [List.map_map]
  simp [Function.comp_def, toLower_toLower]

/-! The claim theorems. -/

/-- C1: for every project and every membership mutation (addMemberById or
removeMemberById), if before the call no user id appears in both manager and
team, then after the call returns (successfully or with an error) no user id
appears in both manager and team. -/
theorem noDualRole_preserved
    (users : List User) (p : Project) (addId remId : String)
    (h : noDualRole p) :
    noDualRole (addMemberById users p addId).1 ∧
    noDualRole (removeMemberById p remId).1 := by
  unfold noDualRole at h
  refine ⟨?_, ?_⟩
  · unfold addMemberById
    cases hf : findById users addId with
    | none => exact h
    | some u =>
        dsimp only
        by_cases hc : ((p.team.any fun t => t == u.id) ||
            (p.manager.any fun m => m == u.id)) = true
        · rw [if_pos hc]
          exact h
        · rw [if_neg hc]
          have hm : u.id ∉ p.manager := by
            rw [← any_beq_iff_mem]
            intro hmm
            exact hc (by rw [hmm]; simp)
          show ∀ x ∈ p.manager, x ∉ p.team ++ [u.id]
          intro x hx hmem
          rcases List.mem_append.mp hmem with hin | hone
          · exact h x hx hin
          · rw [List.mem_singleton] at hone
            exact hm (hone ▸ hx)
  · unfold removeMemberById
    by_cases hc : (!(p.team.any fun t => t == remId)) = true
    · rw [if_pos hc]
      exact h
    · rw [if_neg hc]
      show ∀ x ∈ p.manager, x ∉ p.team.filter fun t => t != remId
      intro x hx hmem
      exact h x hx (List.mem_of_mem_filter hmem)

/-- Closed witness for noDualRole_preserved at a concrete disjoint project. -/
theorem noDualRole_preserved_witness :
    noDualRole ⟨["m"], ["t"]⟩ ∧
    (noDualRole (addMemberById [] ⟨["m"], ["t"]⟩ "x").1 ∧
     noDualRole (removeMemberById ⟨["m"], ["t"]⟩ "t").1) :=
  ⟨by decide, noDualRole_preserved [] ⟨["m"], ["t"]⟩ "x" "t" (by decide)⟩

/-- C2: for every project and user with an existing user record, addMemberById
answers 409 (already a member) whenever the user id is already in manager,
even when it is not in team: the duplicate check consults both collections. -/
theorem addMember_fails_when_already_manager
    (users : List User) (p : Project) (uid : String) (u : User)
    (hfind : findById users uid = some u)
    (hmgr : uid ∈ p.manager) (_hteam : uid ∉ p.team) :
    addMemberById users p uid =
      (p, .err 409 "Este usuario ya está en el proyecto como miembro o manager") := by
  have hid : u.id = uid := findById_id hfind
  have hm : (p.manager.any fun m => m == u.id) = true := by
    rw [any_beq_iff_mem, hid]
    exact hmgr
  simp [addMemberById, hfind, hm]

/-- Closed witness for addMember_fails_when_already_manager: a manager id that
is absent from team is rejected with the 409 conflict response. -/
theorem addMember_fails_when_already_manager_witness :
    findById [⟨"a", "Ana", "ana@x.com", "h1"⟩] "a" = some ⟨"a", "Ana", "ana@x.com", "h1"⟩ ∧
    "a" ∈ ["a"] ∧ "a" ∉ ([] : List String) ∧
    addMemberById [⟨"a", "Ana", "ana@x.com", "h1"⟩] ⟨["a"], []⟩ "a" =
      (⟨["a"], []⟩, .err 409 "Este usuario ya está en el proyecto como miembro o manager") :=
  ⟨by decide, by decide, by decide,
   addMember_fails_when_already_manager [⟨"a", "Ana", "ana@x.com", "h1"⟩] ⟨["a"], []⟩ "a"
     ⟨"a", "Ana", "ana@x.com", "h1"⟩ (by decide) (by decide) (by decide)⟩

/-- C5: for every project and user id in manager but not in team,
removeMemberById fails with the 409 response (managers cannot be removed via
the team-removal path) and the manager collection is unchanged. -/
theorem removeMember_manager_not_removable
    (p : Project) (uid : String) (_hmgr : uid ∈ p.manager) (hteam : uid ∉ p.team) :
    removeMemberById p uid = (p, .err 409 "Este usuario no existe en el proyecto") ∧
    (removeMemberById p uid).1.manager = p.manager := by
  have ht : (p.team.any fun t => t == uid) = false := by
    rw [← Bool.not_eq_true, any_beq_iff_mem]
    exact hteam
  unfold removeMemberById
  rw [ht]
  simp

/-- Closed witness for removeMember_manager_not_removable at a one-manager
project with an empty team. -/
theorem removeMember_manager_not_removable_witness :
    "a" ∈ ["a"] ∧ "a" ∉ (["b"] : List String) ∧
    (removeMemberById ⟨["a"], ["b"]⟩ "a" =
       (⟨["a"], ["b"]⟩, .err 409 "Este usuario no existe en el proyecto") ∧
     (removeMemberById ⟨["a"], ["b"]⟩ "a").1.manager = ["a"]) :=
  ⟨by decide, by decide,
   removeMember_manager_not_removable ⟨["a"], ["b"]⟩ "a" (by decide) (by decide)⟩

/-- C9: when addMemberById fails (user not found or already a member) or
removeMemberById fails (not a member), the project state returned by the call
is exactly the input project: no partial mutation on the error path. -/
theorem failed_mutation_leaves_project_unchanged
    (users : List User) (p q : Project) (uid vid : String)
    (ha : (addMemberById users p uid).2.isErr = true)
    (hr : (removeMemberById q vid).2.isErr = true) :
    (addMemberById users p uid).1 = p ∧ (removeMemberById q vid).1 = q := by
  constructor
  · unfold addMemberById at ha ⊢
    cases hf : findById users uid with
    | none => rfl
    | some u =>
        rw [hf] at ha
        dsimp only at ha ⊢
        by_cases hc : ((p.team.any fun t => t == u.id) ||
            (p.manager.any fun m => m == u.id)) = true
        · rw [if_pos hc]
        · rw [if_neg hc] at ha
          simp [HandlerOutcome.isErr] at ha
  · unfold removeMemberById at hr ⊢
    by_cases hc : (!(q.team.any fun t => t == vid)) = true
    · rw [if_pos hc]
    · rw [if_neg hc] at hr
      simp [HandlerOutcome.isErr] at hr

/-- Closed witness for failed_mutation_leaves_project_unchanged: an add with an
unknown user id and a remove of a non-member both error and leave the state. -/
theorem failed_mutation_leaves_project_unchanged_witness :
    (addMemberById [] ⟨["m"], ["t"]⟩ "x").2.isErr = true ∧
    (removeMemberById ⟨["m"], ["t"]⟩ "x").2.isErr = true ∧
    ((addMemberById [] ⟨["m"], ["t"]⟩ "x").1 = ⟨["m"], ["t"]⟩ ∧
     (removeMemberById ⟨["m"], ["t"]⟩ "x").1 = ⟨["m"], ["t"]⟩) :=
  ⟨by decide, by decide,
   failed_mutation_leaves_project_unchanged [] ⟨["m"], ["t"]⟩ ⟨["m"], ["t"]⟩ "x" "x"
     (by decide) (by decide)⟩

/-- C3: when addMemberById succeeds, afterwards the user id is in team and not
in manager, and a second addMemberById call on the resulting state fails with
the 409 already-a-member response, leaving that state unchanged. -/
theorem addMember_success_then_duplicate
    (users : List User) (p : Project) (uid : String)
    (h : (addMemberById users p uid).2 = .ok "Usuario agregado correctamente") :
    uid ∈ (addMemberById users p uid).1.team ∧
    uid ∉ (addMemberById users p uid).1.manager ∧
    addMemberById users (addMemberById users p uid).1 uid =
      ((addMemberById users p uid).1,
       .err 409 "Este usuario ya está en el proyecto como miembro o manager") := by
  cases hf : findById users uid with
  | none =>
      unfold addMemberById at h
      rw [hf] at h
      simp at h
  | some u =>
      have hid : u.id = uid := findById_id hf
      by_cases hc : ((p.team.any fun t => t == u.id) ||
          (p.manager.any fun m => m == u.id)) = true
      · unfold addMemberById at h
        rw [hf] at h
        dsimp only at h
        rw [if_pos hc] at h
        simp at h
      · have hres : addMemberById users p uid =
            ({ p with team := p.team ++ [u.id] }, .ok "Usuario agregado correctamente") := by
          unfold addMemberById
          rw [hf]
          dsimp only
          rw [if_neg hc]
        rw [hres]
        have hc2 : (((p.team ++ [u.id]).any fun t => t == u.id) ||
            (p.manager.any fun m => m == u.id)) = true := by
          rw [Bool.or_eq_true]
          left
          rw [any_beq_iff_mem]
          simp
        refine ⟨?_, ?_, ?_⟩
        · show uid ∈ p.team ++ [u.id]
          rw [← hid]
          simp
        · show uid ∉ p.manager
          rw [← hid, ← any_beq_iff_mem]
          intro hmm
          exact hc (by rw [hmm]; simp)
        · show addMemberById users { p with team := p.team ++ [u.id] } uid = _
          unfold addMemberById
          rw [hf]
          dsimp only
          rw [if_pos hc2]

/-- Closed witness for addMember_success_then_duplicate: adding a fresh user to
a project gives a successful response, and the theorem applies to it. -/
theorem addMember_success_then_duplicate_witness :
    (addMemberById [⟨"b", "Bea", "bea@x.com", "h2"⟩] ⟨["a"], []⟩ "b").2 =
      .ok "Usuario agregado correctamente" ∧
    ("b" ∈ (addMemberById [⟨"b", "Bea", "bea@x.com", "h2"⟩] ⟨["a"], []⟩ "b").1.team ∧
     "b" ∉ (addMemberById [⟨"b", "Bea", "bea@x.com", "h2"⟩] ⟨["a"], []⟩ "b").1.manager ∧
     addMemberById [⟨"b", "Bea", "bea@x.com", "h2"⟩]
         (addMemberById [⟨"b", "Bea", "bea@x.com", "h2"⟩] ⟨["a"], []⟩ "b").1 "b" =
       ((addMemberById [⟨"b", "Bea", "bea@x.com", "h2"⟩] ⟨["a"], []⟩ "b").1,
        .err 409 "Este usuario ya está en el proyecto como miembro o manager")) :=
  ⟨by decide,
   addMember_success_then_duplicate [⟨"b", "Bea", "bea@x.com", "h2"⟩] ⟨["a"], []⟩ "b"
     (by decide)⟩

/-- C4: for every project and user id in team, removeMemberById succeeds and
removes the id from team, and a second call on the resulting state fails with
the 409 not-a-member response, leaving that state unchanged. -/
theorem removeMember_success_then_notAMember
    (p : Project) (uid : String) (h : uid ∈ p.team) :
    (removeMemberById p uid).2 = .ok "Usuario eliminado correctamente" ∧
    uid ∉ (removeMemberById p uid).1.team ∧
    removeMemberById (removeMemberById p uid).1 uid =
      ((removeMemberById p uid).1, .err 409 "Este usuario no existe en el proyecto") := by
  have ht : (p.team.any fun t => t == uid) = true := any_beq_iff_mem.mpr h
  have hres : removeMemberById p uid =
      ({ p with team := p.team.filter fun t => t != uid },
       .ok "Usuario eliminado correctamente") := by
    unfold removeMemberById
    rw [ht]
    simp
  rw [hres]
  have ht2 : ((p.team.filter fun t => t != uid).any fun t => t == uid) = false := by
    rw [← Bool.not_eq_true, any_beq_iff_mem]
    intro hmem
    have h2 := List.mem_filter.mp hmem
    simp at h2
  refine ⟨rfl, ?_, ?_⟩
  · show uid ∉ p.team.filter fun t => t != uid
    intro hmem
    have h2 := List.mem_filter.mp hmem
    simp at h2
  · show removeMemberById { p with team := p.team.filter fun t => t != uid } uid = _
    unfold removeMemberById
    rw [ht2]
    simp

/-- Closed witness for removeMember_success_then_notAMember: removing a present
team member succeeds once and conflicts the second time. -/
theorem removeMember_success_then_notAMember_witness :
    "b" ∈ (⟨["a"], ["b"]⟩ : Project).team ∧
    ((removeMemberById ⟨["a"], ["b"]⟩ "b").2 = .ok "Usuario eliminado correctamente" ∧
     "b" ∉ (removeMemberById ⟨["a"], ["b"]⟩ "b").1.team ∧
     removeMemberById (removeMemberById ⟨["a"], ["b"]⟩ "b").1 "b" =
       ((removeMemberById ⟨["a"], ["b"]⟩ "b").1,
        .err 409 "Este usuario no existe en el proyecto")) :=
  ⟨by decide, removeMember_success_then_notAMember ⟨["a"], ["b"]⟩ "b" (by decide)⟩

theorem mem_populateUsers {users : List User} {ids : List String} {m : PublicUser}
    (h : m ∈ populateUsers users ids) : ∃ u ∈ users, m = publicOf u := by
  unfold populateUsers at h
  rw [List.mem_map] at h
  obtain ⟨v, hv, hm⟩ := h
  rw [List.mem_filterMap] at hv
  obtain ⟨i, -, hfind⟩ := hv
  exact ⟨v, findById_mem hfind, hm.symm⟩

/-- C6: a collaborator (in team, not in manager) passes the status route, which
carries no hasAuthorization middleware, and the status update is applied; the
update-task and delete-task routes reject the same caller with Forbidden. -/
theorem collaborator_status_ok_but_edit_delete_forbidden
    (p : Project) (t : Task) (uid : String) (s : TaskStatus)
    (hteam : uid ∈ p.team) (hmgr : uid ∉ p.manager) :
    updateTaskStatusRoute p t uid s =
      some { status := s,
             history := t.history ++
               [{ fromStatus := t.status, toStatus := s, actor := uid }] } ∧
    updateTaskRoute p uid = .forbidden ∧
    deleteTaskRoute p uid = .forbidden := by
  have hm : isMember p uid = true := by
    unfold isMember
    rw [Bool.or_eq_true]
    right
    exact any_beq_iff_mem.mpr hteam
  have hauth : hasAuthorization p uid = false := by
    rw [← Bool.not_eq_true]
    unfold hasAuthorization
    rw [any_beq_iff_mem]
    exact hmgr
  refine ⟨?_, ?_, ?_⟩
  · unfold updateTaskStatusRoute
    rw [if_pos hm]
  · unfold updateTaskRoute
    rw [if_neg (by rw [hauth]; simp)]
  · unfold deleteTaskRoute
    rw [if_neg (by rw [hauth]; simp)]

/-- Closed witness for collaborator_status_ok_but_edit_delete_forbidden at a
one-manager, one-collaborator project. -/
theorem collaborator_status_witness :
    "b" ∈ (⟨["a"], ["b"]⟩ : Project).team ∧ "b" ∉ (⟨["a"], ["b"]⟩ : Project).manager ∧
    (updateTaskStatusRoute ⟨["a"], ["b"]⟩ ⟨.pending, []⟩ "b" .completed =
       some { status := .completed,
              history := [{ fromStatus := .pending, toStatus := .completed, actor := "b" }] } ∧
     updateTaskRoute ⟨["a"], ["b"]⟩ "b" = .forbidden ∧
     deleteTaskRoute ⟨["a"], ["b"]⟩ "b" = .forbidden) :=
  ⟨by decide, by decide,
   collaborator_status_ok_but_edit_delete_forbidden ⟨["a"], ["b"]⟩ ⟨.pending, []⟩ "b"
     .completed (by decide) (by decide)⟩

/-- C8: getProjectTeam returns only the id-name-email projection of stored
users (credential fields never appear), and the caller is absent from both the
managers list and the collaborators list. -/
theorem getProjectTeam_projection_and_self_exclusion
    (users : List User) (p : Project) (callerId : String) :
    (∀ m ∈ (getProjectTeam users p callerId).managers,
        m.id ≠ callerId ∧ ∃ u ∈ users, m = publicOf u) ∧
    (∀ m ∈ (getProjectTeam users p callerId).collaborators,
        m.id ≠ callerId ∧ ∃ u ∈ users, m = publicOf u) := by
  constructor
  · intro m hm
    simp only [getProjectTeam] at hm
    rw [List.mem_filter] at hm
    obtain ⟨hmem, hpred⟩ := hm
    refine ⟨?_, mem_populateUsers hmem⟩
    simpa using hpred
  · intro m hm
    simp only [getProjectTeam] at hm
    rw [List.mem_filter] at hm
    obtain ⟨hmem, hpred⟩ := hm
    rw [Bool.and_eq_true] at hpred
    refine ⟨?_, mem_populateUsers hmem⟩
    simpa using hpred.1

/-- Closed witness for getProjectTeam_projection_and_self_exclusion: the
remaining manager entry seen by a collaborator caller is a projection of a
stored user and is not the caller. -/
theorem getProjectTeam_projection_witness :
    (⟨"a", "Ana", "ana@x.com"⟩ : PublicUser) ∈
      (getProjectTeam [⟨"a", "Ana", "ana@x.com", "h1"⟩, ⟨"b", "Bea", "bea@x.com", "h2"⟩]
        ⟨["a"], ["b"]⟩ "b").managers ∧
    ((⟨"a", "Ana", "ana@x.com"⟩ : PublicUser).id ≠ "b" ∧
     ∃ u ∈ [⟨"a", "Ana", "ana@x.com", "h1"⟩, ⟨"b", "Bea", "bea@x.com", "h2"⟩],
       (⟨"a", "Ana", "ana@x.com"⟩ : PublicUser) = publicOf u) :=
  ⟨by decide,
   (getProjectTeam_projection_and_self_exclusion
      [⟨"a", "Ana", "ana@x.com", "h1"⟩, ⟨"b", "Bea", "bea@x.com", "h2"⟩]
      ⟨["a"], ["b"]⟩ "b").1 ⟨"a", "Ana", "ana@x.com"⟩ (by decide)⟩

/-- C10: the managers and collaborators lists returned by getProjectTeam are
disjoint by user id, for every stored state, including states where a user id
appears in both the stored manager and team collections. -/
theorem getProjectTeam_roster_disjoint
    (users : List User) (p : Project) (callerId : String) (x y : PublicUser)
    (hx : x ∈ (getProjectTeam users p callerId).managers)
    (hy : y ∈ (getProjectTeam users p callerId).collaborators) :
    x.id ≠ y.id := by
  simp only [getProjectTeam] at hx hy
  rw [List.mem_filter] at hx hy
  obtain ⟨hxm, -⟩ := hx
  obtain ⟨-, hypred⟩ := hy
  rw [Bool.and_eq_true] at hypred
  obtain ⟨-, hnc⟩ := hypred
  intro heq
  have hmm : y.id ∈ (populateUsers users p.manager).map fun m => m.id := by
    rw [← heq]
    exact List.mem_map_of_mem _ hxm
  simp at hnc
  rw [List.mem_map] at hmm
  obtain ⟨pu, hpu, hpid⟩ := hmm
  exact hnc pu hpu hpid

/-- Closed witness for getProjectTeam_roster_disjoint on a stored state that
violates the no-dual-role invariant: the manager id a is also in team, the
roster still keeps it out of collaborators. -/
theorem getProjectTeam_roster_disjoint_witness :
    (⟨"a", "Ana", "ana@x.com"⟩ : PublicUser) ∈
      (getProjectTeam [⟨"a", "Ana", "ana@x.com", "h1"⟩, ⟨"b", "Bea", "bea@x.com", "h2"⟩]
        ⟨["a"], ["a", "b"]⟩ "c").managers ∧
    (⟨"b", "Bea", "bea@x.com"⟩ : PublicUser) ∈
      (getProjectTeam [⟨"a", "Ana", "ana@x.com", "h1"⟩, ⟨"b", "Bea", "bea@x.com", "h2"⟩]
        ⟨["a"], ["a", "b"]⟩ "c").collaborators ∧
    (⟨"a", "Ana", "ana@x.com"⟩ : PublicUser).id ≠ (⟨"b", "Bea", "bea@x.com"⟩ : PublicUser).id :=
  ⟨by decide, by decide,
   getProjectTeam_roster_disjoint
     [⟨"a", "Ana", "ana@x.com", "h1"⟩, ⟨"b", "Bea", "bea@x.com", "h2"⟩]
     ⟨["a"], ["a", "b"]⟩ "c" ⟨"a", "Ana", "ana@x.com"⟩ ⟨"b", "Bea", "bea@x.com"⟩
     (by decide) (by decide)⟩

/-- C7: the member lookup by email is case-insensitive: for a stored user and
any query email equal to the stored email up to letter case, the find route
answers with that user's projection rather than the 404 response. -/
theorem findMember_case_insensitive
    (users : List User) (u : User) (email : String)
    (hmem : u ∈ users)
    (hcase : lowerStr email = lowerStr u.email)
    (huniq : ∀ v ∈ users, lowerStr v.email = lowerStr u.email → v = u) :
    findMemberRoute users email = .ok (publicOf u) := by
  unfold findMemberRoute findMemberByEmail findOneByEmail
  have hkey : lowerStr (lowerStr email) = lowerStr u.email := by
    rw [hcase, lowerStr_lowerStr]
  have hfind : (users.find? fun v => lowerStr v.email == lowerStr (lowerStr email)) =
      some u := by
    have hex : (users.find? fun v =>
        lowerStr v.email == lowerStr (lowerStr email)).isSome := by
      rw [List.find?_isSome]
      exact ⟨u, hmem, by rw [hkey]; simp⟩
    obtain ⟨w, hw⟩ := Option.isSome_iff_exists.mp hex
    have hpw := List.find?_some hw
    have hwmem := List.mem_of_find?_eq_some hw
    rw [beq_iff_eq] at hpw
    have hwu : w = u := huniq w hwmem (by rw [hpw, hkey])
    rw [hw, hwu]
  rw [hfind]

/-- Closed witness for findMember_case_insensitive: a query differing from the
stored email only in letter case still finds the user. -/
theorem findMember_case_insensitive_witness :
    (⟨"a", "Ana", "Ana@X.com", "h1"⟩ : User) ∈ [(⟨"a", "Ana", "Ana@X.com", "h1"⟩ : User)] ∧
    lowerStr "ANA@x.COM" = lowerStr "Ana@X.com" ∧
    (∀ v ∈ [(⟨"a", "Ana", "Ana@X.com", "h1"⟩ : User)],
        lowerStr v.email = lowerStr "Ana@X.com" → v = ⟨"a", "Ana", "Ana@X.com", "h1"⟩) ∧
    findMemberRoute [⟨"a", "Ana", "Ana@X.com", "h1"⟩] "ANA@x.COM" =
      .ok (publicOf ⟨"a", "Ana", "Ana@X.com", "h1"⟩) :=
  ⟨by decide, by decide, by decide,
   findMember_case_insensitive [⟨"a", "Ana", "Ana@X.com", "h1"⟩]
     ⟨"a", "Ana", "Ana@X.com", "h1"⟩ "ANA@x.COM" (by decide) (by decide) (by decide)⟩

end UpTask
